import Mathlib

/-!
Verification of the ts-kit reactive state reporter.

This file shallowly embeds the reporter stack of the repository:

* the value model (`JsNum`, `ReporterValue`) with an `Object.is`-style
  identity test that distinguishes `+0` from `-0` and identifies `NaN`
  with itself;
* JS objects as ordered association lists (`Entries`) with the update
  semantics of property assignment (`setKey`, `assign`);
* `shallowEqual` from `src/objects/shallow-equal.ts`;
* the operation constructors `set` / `add` / `sub` from
  `observability/metrics/operations.ts`;
* the generic `Reporter` (batch `apply`, `prune`, `transform`, `watch`)
  and the `Subject`-based throwing `Reporter` variant
  (`observability/metrics/reporter.ts`).

Streams are modelled extensionally: an observable is the list of values
it delivers to a subscriber, and the rxjs operators used by the code
(`distinctUntilChanged`, `startWith`, `pairwise`, `filter`, `map`) are
given their list semantics.  Numeric arithmetic is exact (integers plus
the special values `NaN` and `-0`); floating-point rounding is not
modelled, which is irrelevant to the claims proved here.
-/

namespace TsKit

/-- A JavaScript number as far as `Object.is` and the reporter's
arithmetic are concerned: `NaN`, negative zero, or an exact integer
(`int 0` is `+0`). -/
inductive JsNum where
  | nan
  | negZero
  | int (v : Int)
deriving DecidableEq, Repr

/-- IEEE-style addition on the embedded numbers: `NaN` is absorbing,
`-0 + -0 = -0`, and any other sum involving a zero or two integers is
the exact integer sum (whose zero is `+0`). -/
def jsAdd : JsNum → JsNum → JsNum
  | .nan, _ => .nan
  | _, .nan => .nan
  | .negZero, .negZero => .negZero
  | .negZero, .int b => .int b
  | .int a, .negZero => .int a
  | .int a, .int b => .int (a + b)

/-- IEEE-style subtraction: `NaN` is absorbing, `-0 - -0 = +0`,
`-0 - 0 = -0`, and finite differences are exact (zero is `+0`). -/
def jsSub : JsNum → JsNum → JsNum
  | .nan, _ => .nan
  | _, .nan => .nan
  | .negZero, .negZero => .int 0
  | .negZero, .int b => if b = 0 then .negZero else .int (-b)
  | .int a, .negZero => .int a
  | .int a, .int b => .int (a - b)

/-- The reporter's value union: string, number, boolean, `null`,
`undefined`, or an opaque object identified by reference. -/
inductive ReporterValue where
  | str (s : String)
  | num (n : JsNum)
  | bool (b : Bool)
  | null
  | undefined
  | obj (ref : Nat)
deriving DecidableEq, Repr

/-- `Object.is`: reference/value identity.  On the embedded values this
is structural equality, which makes `NaN` equal to `NaN` and keeps
`+0`/`-0`, `null`, and `undefined` pairwise distinct. -/
def objectIs (a b : ReporterValue) : Bool :=
  decide (a = b)

/-- `typeof v === "number"`. -/
def isNumberType : ReporterValue → Bool
  | .num _ => true
  | _ => false

/-- The string produced by the `typeof` operator. -/
def typeofStr : ReporterValue → String
  | .str _ => "string"
  | .num _ => "number"
  | .bool _ => "boolean"
  | .null => "object"
  | .undefined => "undefined"
  | .obj _ => "object"

/-- JS truthiness of a value (`!v` negated). -/
def truthy : ReporterValue → Bool
  | .str s => !(s == "")
  | .num .nan => false
  | .num .negZero => false
  | .num (.int v) => !(v == 0)
  | .bool b => b
  | .null => false
  | .undefined => false
  | .obj _ => true

/-- One own enumerable property of a JS object. -/
abbrev Entry := String × ReporterValue

/-- A JS object as its ordered list of own enumerable properties.  A
well-formed object has no duplicate keys (`NodupKeys`). -/
abbrev Entries := List Entry

/-- `Object.hasOwn(l, k)`. -/
def hasOwn (l : Entries) (k : String) : Bool :=
  l.any (fun e => e.1 == k)

/-- Property read `l[k]`: the stored value, or `undefined` when the key
is absent. -/
def getJS (l : Entries) (k : String) : ReporterValue :=
  match l.find? (fun e => e.1 == k) with
  | some e => e.2
  | none => .undefined

/-- Property assignment `l[k] = v`: overwrites an existing key in place
(keeping its position) or appends a new key at the end. -/
def setKey (l : Entries) (k : String) (v : ReporterValue) : Entries :=
  if hasOwn l k then l.map (fun e => if e.1 == k then (k, v) else e)
  else l ++ [(k, v)]

/-- `Object.keys`. -/
def keysOf (l : Entries) : List String :=
  l.map Prod.fst

/-- Well-formedness of a JS object: its keys are pairwise distinct. -/
def NodupKeys (l : Entries) : Prop :=
  (keysOf l).Nodup

instance (l : Entries) : Decidable (NodupKeys l) := by
  unfold NodupKeys; infer_instance

/-- `Object.assign(l, delta)`: fold the delta's properties into `l` in
order (last write wins per key). -/
def assign (l : Entries) (delta : Entries) : Entries :=
  delta.foldl (fun acc e => setKey acc e.1 e.2) l

/-- `shallowEqual` from `src/objects/shallow-equal.ts`: equal key
counts, and every key of `a` is an own key of `b` whose value is
`Object.is`-identical. -/
def shallowEqual (a b : Entries) : Bool :=
  if (keysOf a).length ≠ (keysOf b).length then false
  else (keysOf a).all (fun k => hasOwn b k && objectIs (getJS a k) (getJS b k))

/-- An `Operation`: a pure function from the current state to a delta. -/
abbrev Operation := Entries → Entries

namespace Operations

/-- `set(key, value)` from `operations.ts`. -/
def set (key : String) (value : ReporterValue) : Operation :=
  fun _ => [(key, value)]

/-- `add(key, amount)` from `operations.ts`: the current value if it is
a number, else `0`, plus `amount`. -/
def add (key : String) (amount : JsNum) : Operation :=
  fun state =>
    let cur : JsNum := match getJS state key with | .num n => n | _ => .int 0
    [(key, .num (jsAdd cur amount))]

/-- `sub(key, amount)` from `operations.ts`. -/
def sub (key : String) (amount : JsNum) : Operation :=
  fun state =>
    let cur : JsNum := match getJS state key with | .num n => n | _ => .int 0
    [(key, .num (jsSub cur amount))]

end Operations

namespace Reporter

/-- One argument of `Reporter.apply`: a raw partial map or an
`Operation`. -/
inductive ApplyItem where
  | op (f : Operation)
  | raw (d : Entries)

/-- One iteration of the `apply` loop: evaluate an operation against the
working copy (or take a raw delta as-is) and `Object.assign` it in. -/
def stepItem (next : Entries) : ApplyItem → Entries
  | .op f => assign next (f next)
  | .raw d => assign next d

/-- The working copy after folding every item of a batch, seeded from
the committed state. -/
def foldItems (st : Entries) (items : List ApplyItem) : Entries :=
  items.foldl stepItem st

/-- `Reporter.apply`: fold the batch, then commit and emit exactly one
snapshot iff the result is not `shallowEqual` to the committed state.
Returns the new committed state and the list of emissions. -/
def apply (st : Entries) (items : List ApplyItem) : Entries × List Entries :=
  let next := foldItems st items
  if shallowEqual st next then (st, []) else (next, [next])

/-- `Reporter.set`: `apply` with a single raw delta. -/
def setM (st : Entries) (key : String) (value : ReporterValue) : Entries × List Entries :=
  apply st [.raw [(key, value)]]

/-- `Reporter.add`: `apply` with a single `add` operation. -/
def addM (st : Entries) (key : String) (amount : JsNum) : Entries × List Entries :=
  apply st [.op (Operations.add key amount)]

/-- `Reporter.sub`: `apply` with a single `sub` operation. -/
def subM (st : Entries) (key : String) (amount : JsNum) : Entries × List Entries :=
  apply st [.op (Operations.sub key amount)]

/-- A predicate over `(state, key)` as used by `prune` and `transform`. -/
abbrev Pred := Entries → String → Bool

/-- The `prune` loop over `Object.keys(state)`: copy a key into `next`
when every predicate passes, otherwise record a removal. -/
def pruneLoop (st : Entries) (preds : List Pred) :
    List String → Entries → Bool → Entries × Bool
  | [], next, removed => (next, removed)
  | k :: ks, next, removed =>
    if preds.all (fun fn => fn st k) then
      pruneLoop st preds ks (setKey next k (getJS st k)) removed
    else
      pruneLoop st preds ks next true

/-- `Reporter.prune`: rebuild the state from the keys every predicate
keeps, then commit and emit iff a key was removed and the result is not
`shallowEqual` to the previous state. -/
def prune (st : Entries) (preds : List Pred) : Entries × List Entries :=
  let r := pruneLoop st preds (keysOf st) [] false
  if r.2 && !(shallowEqual st r.1) then (r.1, [r.1]) else (st, [])

/-- The `transform` loop: as in the source, `passesDrop` is computed
from the `keep` array (there is no `drop` field in the signature), and
`next` is seeded with a full copy of the state. -/
def transformLoop (st : Entries) (keep : Option (List Pred)) :
    List String → Entries → Bool → Entries × Bool
  | [], next, removed => (next, removed)
  | k :: ks, next, removed =>
    let passesKeep := keep.isNone || (keep.getD []).any (fun fn => fn st k)
    let passesDrop := keep.isSome && (keep.getD []).any (fun fn => fn st k)
    if passesKeep && !passesDrop then
      transformLoop st keep ks (setKey next k (getJS st k)) removed
    else
      transformLoop st keep ks next true

/-- `Reporter.transform` as implemented: loop over the keys with `next`
seeded from `{ ...state }`, then commit and emit iff `removed` is set
and the result is not `shallowEqual` to the previous state. -/
def transform (st : Entries) (keep : Option (List Pred)) : Entries × List Entries :=
  let r := transformLoop st keep (keysOf st) st false
  if r.2 && !(shallowEqual st r.1) then (r.1, [r.1]) else (st, [])

/-- Apply a list of batches in sequence, collecting all broadcast
emissions in order. -/
def runBatches (st : Entries) : List (List ApplyItem) → Entries × List Entries
  | [] => (st, [])
  | b :: bs =>
    let r := apply st b
    let rest := runBatches r.1 bs
    (rest.1, r.2 ++ rest.2)

/-- List semantics of `distinctUntilChanged(shallowEqual)` relative to a
last-delivered value `a`. -/
def dedupFrom (a : Entries) : List Entries → List Entries
  | [] => []
  | b :: bs => if shallowEqual a b then dedupFrom a bs else b :: dedupFrom b bs

/-- List semantics of `distinctUntilChanged(shallowEqual)`: the first
value is delivered, later ones only when not `shallowEqual` to the last
delivered value. -/
def distinctUntilChanged : List Entries → List Entries
  | [] => []
  | a :: rest => a :: dedupFrom a rest

/-- `pairwise` + `filter` + `map`: forward the second component of each
consecutive pair in which some watched key differs under `Object.is`. -/
def pairFilter (keys : List String) (l : List Entries) : List Entries :=
  ((l.zip l.tail).filter
    (fun pc => keys.any (fun k => !(objectIs (getJS pc.1 k) (getJS pc.2 k))))).map
    Prod.snd

/-- `Reporter.watch(...keys)` observed by a subscriber whose
subscription-time committed state is `current` and which later receives
the committed snapshots `future`: the `BehaviorSubject` replays
`current`, `metrics$` deduplicates, and `watch` prepends
`startWith(snapshot())` before `pairwise`/`filter`/`map`. -/
def watch (keys : List String) (current : Entries) (future : List Entries) : List Entries :=
  pairFilter keys (current :: distinctUntilChanged (current :: future))

/-- Consecutive elements of the list are pairwise not `shallowEqual`;
this is an invariant of every sequence of committed snapshots, because
the reporter commits only states that differ from the previous one. -/
def consecDistinct : List Entries → Bool
  | [] => true
  | [_] => true
  | a :: b :: t => !(shallowEqual a b) && consecDistinct (b :: t)

end Reporter

namespace SubjectReporter

/-- The delta loop of the `Subject`-based reporter's `apply`: copy a
property into the working copy only when it differs from the committed
state under `Object.is`. -/
def applyLoop (st : Entries) : List Entry → Entries → Bool → Entries × Bool
  | [], cur, changed => (cur, changed)
  | e :: rest, cur, changed =>
    if !(objectIs e.2 (getJS st e.1)) then
      applyLoop st rest (setKey cur e.1 e.2) true
    else
      applyLoop st rest cur changed

/-- `apply(delta)` of the `Subject`-based reporter: commit and emit iff
some property of the delta differs from the committed state. -/
def apply (st : Entries) (delta : Entries) : Entries × List Entries :=
  let r := applyLoop st delta st false
  if r.2 then (r.1, [r.1]) else (st, [])

/-- `add(key, value)` of the `Subject`-based reporter
(`observability/metrics/reporter.ts`): when `!state[key]` (JS
truthiness) it falls through to `set`; when the value is a number it
applies the sum; otherwise it throws a `TypeError`. -/
def add (st : Entries) (key : String) (value : JsNum) :
    Except String (Entries × List Entries) :=
  if truthy (getJS st key) then
    match getJS st key with
    | .num cur => .ok (apply st [(key, .num (jsAdd cur value))])
    | v => .error s!"key {key} is not a number, is {typeofStr v}"
  else
    .ok (apply st [(key, .num value)])

/-- `sub(key, value)` of the `Subject`-based reporter, symmetric to
`add`. -/
def sub (st : Entries) (key : String) (value : JsNum) :
    Except String (Entries × List Entries) :=
  if truthy (getJS st key) then
    match getJS st key with
    | .num cur => .ok (apply st [(key, .num (jsSub cur value))])
    | v => .error s!"key {key} is not a number, is {typeofStr v}"
  else
    .ok (apply st [(key, .num value)])

end SubjectReporter

/-! ### Basic lemmas about the object model -/

theorem objectIs_refl (v : ReporterValue) : objectIs v v = true := by
  simp [objectIs]

theorem hasOwn_iff_mem {l : Entries} {k : String} : hasOwn l k = true ↔ k ∈ keysOf l := by
  simp only [hasOwn, keysOf, List.any_eq_true, List.mem_map, beq_iff_eq]

theorem getJS_of_hasOwn_eq_false {l : Entries} {k : String} (h : hasOwn l k = false) :
    getJS l k = .undefined := by
  have h' : l.find? (fun e => e.1 == k) = none := by
    rw [List.find?_eq_none]
    intro x hx
    have := List.any_eq_false.mp h x hx
    simpa using this
  simp [getJS, h']

theorem getJS_cons {e : Entry} {l : Entries} {k : String} :
    getJS (e :: l) k = if e.1 == k then e.2 else getJS l k := by
  by_cases h : (e.1 == k) = true
  · simp [getJS, List.find?_cons, h]
  · simp only [Bool.not_eq_true] at h
    simp [getJS, List.find?_cons, h]

theorem setKey_of_hasOwn_eq_false {l : Entries} {k : String} {v : ReporterValue}
    (h : hasOwn l k = false) : setKey l k v = l ++ [(k, v)] := by
  simp [setKey, h]

theorem hasOwn_append {l m : Entries} {k : String} :
    hasOwn (l ++ m) k = (hasOwn l k || hasOwn m k) := by
  simp [hasOwn]

theorem hasOwn_cons {e : Entry} {l : Entries} {k : String} :
    hasOwn (e :: l) k = ((e.1 == k) || hasOwn l k) := by
  simp [hasOwn]

theorem getJS_append_single (l : Entries) (k : String) (v : ReporterValue)
    (h : hasOwn l k = false) : getJS (l ++ [(k, v)]) k = v := by
  induction l with
  | nil => simp [getJS, List.find?]
  | cons e t ih =>
    rw [hasOwn_cons, Bool.or_eq_false_iff] at h
    rw [List.cons_append, getJS_cons, h.1]
    simpa using ih h.2

theorem getJS_map_setKey (l : Entries) (k : String) (v : ReporterValue)
    (h : hasOwn l k = true) :
    getJS (l.map (fun e => if e.1 == k then (k, v) else e)) k = v := by
  induction l with
  | nil => simp [hasOwn] at h
  | cons e t ih =>
    by_cases he : (e.1 == k) = true
    · simp only [List.map_cons, if_pos he, getJS_cons]
      simp
    · have he' : (e.1 == k) = false := by simpa using he
      rw [hasOwn_cons, he', Bool.false_or] at h
      rw [List.map_cons, if_neg he, getJS_cons, he']
      simp only [Bool.false_eq_true, if_false]
      exact ih h

theorem getJS_setKey_self (l : Entries) (k : String) (v : ReporterValue) :
    getJS (setKey l k v) k = v := by
  unfold setKey
  by_cases h : hasOwn l k = true
  · rw [if_pos h]
    exact getJS_map_setKey l k v h
  · rw [if_neg h]
    exact getJS_append_single l k v (by simpa using h)

theorem getJS_entry_of_nodup {l : Entries} (hnd : NodupKeys l) {e : Entry} (he : e ∈ l) :
    getJS l e.1 = e.2 := by
  induction l with
  | nil => cases he
  | cons a t ih =>
    have hnd' : a.1 ∉ keysOf t ∧ NodupKeys t := by
      simpa [NodupKeys, keysOf, List.nodup_cons] using hnd
    rcases List.mem_cons.mp he with rfl | ht
    · simp [getJS_cons]
    · have hne : (a.1 == e.1) = false := by
        have : e.1 ∈ keysOf t := List.mem_map.mpr ⟨e, ht, rfl⟩
        simp only [beq_eq_false_iff_ne, ne_eq]
        intro hc
        exact hnd'.1 (hc ▸ this)
      rw [getJS_cons, hne]
      simp only [Bool.false_eq_true, if_false]
      exact ih hnd'.2 ht

theorem setKey_self_of_nodup {l : Entries} (hnd : NodupKeys l) {k : String}
    (h : hasOwn l k = true) : setKey l k (getJS l k) = l := by
  unfold setKey
  rw [if_pos h]
  have : l.map (fun e => if e.1 == k then (k, getJS l k) else e) = l.map id := by
    apply List.map_congr_left
    intro e he
    by_cases hek : (e.1 == k) = true
    · have hk : e.1 = k := by simpa using hek
      rw [if_pos hek, ← hk, getJS_entry_of_nodup hnd he]
      exact Prod.mk.eta
    · rw [if_neg hek]
      rfl
  rw [this, List.map_id]

theorem shallowEqual_refl (l : Entries) : shallowEqual l l = true := by
  unfold shallowEqual
  rw [if_neg (by simp), List.all_eq_true]
  intro k hk
  simp [hasOwn_iff_mem.mpr hk, objectIs_refl]

theorem shallowEqual_of_length_ne {a b : Entries}
    (h : (keysOf a).length ≠ (keysOf b).length) : shallowEqual a b = false := by
  simp [shallowEqual, h]

/-! ### Stream lemmas -/

theorem dedupFrom_eq_self {a : Entries} {l : List Entries}
    (h : Reporter.consecDistinct (a :: l) = true) : Reporter.dedupFrom a l = l := by
  induction l generalizing a with
  | nil => rfl
  | cons b t ih =>
    rw [Reporter.consecDistinct] at h
    simp only [Bool.and_eq_true, Bool.not_eq_true'] at h
    rw [Reporter.dedupFrom, if_neg (by simp [h.1])]
    rw [ih h.2]

theorem pairFilter_cons_self (keys : List String) (a : Entries) (l : List Entries) :
    Reporter.pairFilter keys (a :: a :: l) = Reporter.pairFilter keys (a :: l) := by
  unfold Reporter.pairFilter
  simp only [List.tail_cons, List.zip_cons_cons, List.filter_cons]
  have h : (keys.any fun k => !(objectIs (getJS a k) (getJS a k))) = false := by
    simp [objectIs_refl]
  simp [h]

theorem runBatches_consecDistinct (st : Entries) (batches : List (List Reporter.ApplyItem)) :
    Reporter.consecDistinct (st :: (Reporter.runBatches st batches).2) = true := by
  induction batches generalizing st with
  | nil => rfl
  | cons b bs ih =>
    rw [Reporter.runBatches]
    by_cases h : shallowEqual st (Reporter.foldItems st b) = true
    · have ha : Reporter.apply st b = (st, []) := by simp [Reporter.apply, h]
      simpa [ha] using ih st
    · have h' : shallowEqual st (Reporter.foldItems st b) = false := by simpa using h
      have ha : Reporter.apply st b =
          (Reporter.foldItems st b, [Reporter.foldItems st b]) := by
        simp [Reporter.apply, h']
      simp only [ha, List.cons_append, List.nil_append]
      rw [Reporter.consecDistinct]
      simp [h', ih (Reporter.foldItems st b)]

theorem watch_eq_pairFilter (keys : List String) (cur : Entries) (commits : List Entries)
    (h : Reporter.consecDistinct (cur :: commits) = true) :
    Reporter.watch keys cur commits = Reporter.pairFilter keys (cur :: commits) := by
  have h1 : Reporter.distinctUntilChanged (cur :: commits) =
      cur :: Reporter.dedupFrom cur commits := rfl
  unfold Reporter.watch
  rw [h1, dedupFrom_eq_self h, pairFilter_cons_self]

/-! ### Filter lemmas for prune -/

theorem hasOwn_filter (l : Entries) (q : String → Bool) (k : String) :
    hasOwn (l.filter (fun e => q e.1)) k = (hasOwn l k && q k) := by
  induction l with
  | nil => simp [hasOwn]
  | cons e t ih =>
    by_cases hk : e.1 = k
    · subst hk
      cases hq : q e.1
      · rw [List.filter_cons_of_neg (by simp [hq]), ih, hasOwn_cons]
        simp [hq]
      · rw [List.filter_cons_of_pos (by simp [hq]), hasOwn_cons, hasOwn_cons, ih]
        simp [hq]
    · have he : (e.1 == k) = false := by simpa using hk
      cases hq : q e.1
      · rw [List.filter_cons_of_neg (by simp [hq]), ih, hasOwn_cons, he]
        simp
      · rw [List.filter_cons_of_pos (by simp [hq]), hasOwn_cons, he, ih, hasOwn_cons, he]
        simp

theorem getJS_filter (l : Entries) (q : String → Bool) (k : String) (hq : q k = true) :
    getJS (l.filter (fun e => q e.1)) k = getJS l k := by
  induction l with
  | nil => rfl
  | cons e t ih =>
    by_cases hk : e.1 = k
    · subst hk
      rw [List.filter_cons_of_pos (by simp [hq]), getJS_cons, getJS_cons]
      simp [ih]
    · have he : (e.1 == k) = false := by simpa using hk
      cases hqe : q e.1
      · rw [List.filter_cons_of_neg (by simp [hqe]), ih, getJS_cons, he]
        simp
      · rw [List.filter_cons_of_pos (by simp [hqe]), getJS_cons, he, getJS_cons, he, ih]

theorem pruneLoop_eq (st : Entries) (preds : List Reporter.Pred) (ks : List String) :
    ∀ (next : Entries) (removed : Bool), ks.Nodup → (∀ k ∈ ks, hasOwn next k = false) →
      Reporter.pruneLoop st preds ks next removed =
        (next ++ (ks.filter (fun k => preds.all (fun fn => fn st k))).map
            (fun k => (k, getJS st k)),
         removed || ks.any (fun k => !(preds.all (fun fn => fn st k)))) := by
  induction ks with
  | nil =>
    intro next removed _ _
    simp [Reporter.pruneLoop]
  | cons k ks ih =>
    intro next removed hnd hfresh
    have hk : hasOwn next k = false := hfresh k (List.mem_cons_self k ks)
    rw [Reporter.pruneLoop]
    by_cases hp : preds.all (fun fn => fn st k) = true
    · rw [if_pos hp, setKey_of_hasOwn_eq_false hk]
      have hfresh' : ∀ k' ∈ ks, hasOwn (next ++ [(k, getJS st k)]) k' = false := by
        intro k' hk'
        rw [hasOwn_append, hfresh k' (List.mem_cons_of_mem _ hk'), Bool.false_or]
        have hne : k ≠ k' := by
          rintro rfl
          exact (List.nodup_cons.mp hnd).1 hk'
        simp [hasOwn, hne]
      rw [ih _ _ (List.Nodup.of_cons hnd) hfresh']
      rw [List.filter_cons_of_pos (by simp [hp])]
      simp [hp, List.append_assoc]
    · have hp' : preds.all (fun fn => fn st k) = false := by simpa using hp
      rw [if_neg hp]
      rw [ih _ _ (List.Nodup.of_cons hnd)
        (fun k' h => hfresh k' (List.mem_cons_of_mem _ h))]
      rw [List.filter_cons_of_neg (by simp [hp'])]
      simp [hp']

theorem filter_keys_map_getJS (st : Entries) (q : String → Bool) (hnd : NodupKeys st) :
    ((keysOf st).filter q).map (fun k => (k, getJS st k)) = st.filter (fun e => q e.1) := by
  induction st with
  | nil => rfl
  | cons e t ih =>
    have hnd' : e.1 ∉ keysOf t ∧ NodupKeys t := by
      simpa [NodupKeys, keysOf] using hnd
    have hkeys : keysOf (e :: t) = e.1 :: keysOf t := rfl
    rw [hkeys]
    have hmap : ∀ k ∈ (keysOf t).filter q, (k, getJS (e :: t) k) = (k, getJS t k) := by
      intro k hkf
      have hkt : k ∈ keysOf t := (List.mem_filter.mp hkf).1
      have hne : (e.1 == k) = false := by
        simp only [beq_eq_false_iff_ne, ne_eq]
        rintro rfl
        exact hnd'.1 hkt
      rw [getJS_cons, hne]
      simp
    by_cases hq : q e.1 = true
    · rw [List.filter_cons_of_pos (by simpa using hq),
        List.filter_cons_of_pos (by simpa using hq), List.map_cons]
      congr 1
      · rw [getJS_cons]
        simp
      · rw [List.map_congr_left hmap, ih hnd'.2]
    · rw [List.filter_cons_of_neg (by simpa using hq),
        List.filter_cons_of_neg (by simpa using hq)]
      rw [List.map_congr_left hmap, ih hnd'.2]

theorem prune_loop_result (st : Entries) (preds : List Reporter.Pred) (hnd : NodupKeys st) :
    Reporter.pruneLoop st preds (keysOf st) [] false =
      (st.filter (fun e => preds.all (fun fn => fn st e.1)),
       st.any (fun e => !(preds.all (fun fn => fn st e.1)))) := by
  rw [pruneLoop_eq st preds (keysOf st) [] false hnd (fun _ _ => rfl)]
  rw [List.nil_append, filter_keys_map_getJS st _ hnd]
  have hany : ∀ l : Entries, (keysOf l).any (fun k => !(preds.all (fun fn => fn st k))) =
      l.any (fun e => !(preds.all (fun fn => fn st e.1))) := by
    intro l
    induction l with
    | nil => rfl
    | cons e t ih =>
      simp only [keysOf, List.map_cons, List.any_cons] at *
      rw [ih]
  rw [Bool.false_or, hany st]

theorem prune_result_of_none_removed (st : Entries) (preds : List Reporter.Pred)
    (hnd : NodupKeys st)
    (h : st.any (fun e => !(preds.all (fun fn => fn st e.1))) = false) :
    Reporter.prune st preds = (st, []) := by
  unfold Reporter.prune
  simp [prune_loop_result st preds hnd, h]

theorem prune_result_of_removed (st : Entries) (preds : List Reporter.Pred)
    (hnd : NodupKeys st)
    (h : st.any (fun e => !(preds.all (fun fn => fn st e.1))) = true) :
    Reporter.prune st preds =
      (st.filter (fun e => preds.all (fun fn => fn st e.1)),
       [st.filter (fun e => preds.all (fun fn => fn st e.1))]) := by
  obtain ⟨e, he, hef⟩ := List.any_eq_true.mp h
  have hef' : (preds.all fun fn => fn st e.1) = false := by simpa using hef
  have hlen : (st.filter (fun e => preds.all fun fn => fn st e.1)).length ≠ st.length := by
    intro hcontra
    have := List.filter_length_eq_length.mp hcontra e he
    simp [hef'] at this
  have hse : shallowEqual st (st.filter (fun e => preds.all fun fn => fn st e.1)) = false :=
    shallowEqual_of_length_ne (by simpa [keysOf] using fun hc => hlen hc.symm)
  unfold Reporter.prune
  simp [prune_loop_result st preds hnd, h, hse]

/-! ### Transform loop invariant -/

theorem transformLoop_fst_eq_self (st : Entries) (keep : Option (List Reporter.Pred))
    (hnd : NodupKeys st) (ks : List String) :
    ∀ removed : Bool, (∀ k ∈ ks, hasOwn st k = true) →
      (Reporter.transformLoop st keep ks st removed).1 = st := by
  induction ks with
  | nil =>
    intro removed _
    rfl
  | cons k ks ih =>
    intro removed hks
    have hk : hasOwn st k = true := hks k (List.mem_cons_self k ks)
    have hks' : ∀ k' ∈ ks, hasOwn st k' = true :=
      fun k' h => hks k' (List.mem_cons_of_mem _ h)
    rw [Reporter.transformLoop]
    split
    · rw [setKey_self_of_nodup hnd hk]
      exact ih _ hks'
    · exact ih _ hks'

/-! ### Claim theorems -/

/-- C1: after folding a batch, `Reporter.apply` commits the working copy
and emits exactly one snapshot iff the folded result differs from the
committed state under the shallow-equality oracle; a batch whose net
effect is the identity (here: set-then-set-back, and add-then-sub
cancelling out, from `{foo: 10}`) yields zero emissions and leaves the
committed state unchanged. -/
theorem c1_apply_commits_iff_net_change :
    (∀ (st : Entries) (items : List Reporter.ApplyItem),
      ((Reporter.apply st items).2.length = 1 ↔
        shallowEqual st (Reporter.foldItems st items) = false) ∧
      (shallowEqual st (Reporter.foldItems st items) = true →
        Reporter.apply st items = (st, [])) ∧
      (shallowEqual st (Reporter.foldItems st items) = false →
        Reporter.apply st items =
          (Reporter.foldItems st items, [Reporter.foldItems st items]))) ∧
    Reporter.apply [("foo", .num (.int 10))]
      [.op (Operations.set "foo" (.num (.int 99))),
       .op (Operations.set "foo" (.num (.int 10)))] =
      ([("foo", .num (.int 10))], []) ∧
    Reporter.apply [("foo", .num (.int 10))]
      [.op (Operations.add "foo" (.int 1)), .op (Operations.sub "foo" (.int 1))] =
      ([("foo", .num (.int 10))], []) := by
  refine ⟨fun st items => ?_, by decide, by decide⟩
  unfold Reporter.apply
  by_cases h : shallowEqual st (Reporter.foldItems st items) = true
  · simp [h]
  · have h' : shallowEqual st (Reporter.foldItems st items) = false := by simpa using h
    simp [h']

theorem c1_witness :
    Reporter.apply [("foo", ReporterValue.num (JsNum.int 10))] [] =
      ([("foo", ReporterValue.num (JsNum.int 10))], []) :=
  (c1_apply_commits_iff_net_change.1 [("foo", ReporterValue.num (JsNum.int 10))] []).2.1
    (by decide)

/-- C2: within one batch, every item is folded into the working copy
that already reflects all earlier items (sequential fold visibility),
raw deltas are merged last-write-wins per key, and from `{foo: 10}` the
batch `add("foo",1), add("foo",2), sub("foo",1)` commits `foo = 12` with
exactly one emission. -/
theorem c2_sequential_fold_visibility :
    (∀ (st : Entries) (item : Reporter.ApplyItem) (items : List Reporter.ApplyItem),
      Reporter.foldItems st (item :: items) =
        Reporter.foldItems (Reporter.stepItem st item) items) ∧
    (∀ (st : Entries) (k : String) (v₁ v₂ : ReporterValue),
      getJS (Reporter.foldItems st [.raw [(k, v₁)], .raw [(k, v₂)]]) k = v₂) ∧
    Reporter.apply [("foo", .num (.int 10))]
      [.op (Operations.add "foo" (.int 1)), .op (Operations.add "foo" (.int 2)),
       .op (Operations.sub "foo" (.int 1))] =
      ([("foo", .num (.int 12))], [[("foo", .num (.int 12))]]) := by
  refine ⟨fun st item items => rfl, fun st k v₁ v₂ => ?_, by decide⟩
  show getJS (setKey (setKey st k v₁) k v₂) k = v₂
  exact getJS_setKey_self _ k v₂

/-- C3: the `Subject`-based reporter's `add` does not fail for every
present non-numeric value: for the falsy value `false` under key
`status` it silently overwrites the key and emits (first conjunct,
contradicting the claim and the method's own `@throws` contract), while
for the truthy `"ready"` it errors as claimed (second conjunct); the
generic reporter's `add` wrapper never fails at all and overwrites
`"ready"` (third conjunct). -/
theorem c3_add_type_guard_divergence :
    SubjectReporter.add [("status", .bool false)] "status" (.int 1) =
      .ok ([("status", .num (.int 1))], [[("status", .num (.int 1))]]) ∧
    SubjectReporter.add [("status", .str "ready")] "status" (.int 1) =
      .error "key status is not a number, is string" ∧
    Reporter.addM [("status", .str "ready")] "status" (.int 1) =
      ([("status", .num (.int 1))], [[("status", .num (.int 1))]]) := by
  exact ⟨by rfl, by rfl, by decide⟩

/-- C4: `Reporter.transform` never removes a key and never emits: with a
`keep` predicate that rejects key `a`, the state `{a:1, b:2}` is left
intact with zero emissions (the claim requires `{b:2}` and one
emission); on the state of the repository's own `transform` test, the
result is likewise the unchanged state with zero emissions (the test
expects `{foo: 1}`). -/
theorem c4_transform_removes_nothing :
    Reporter.transform [("a", .num (.int 1)), ("b", .num (.int 2))]
      (some [fun _ k => !(k == "a")]) =
      ([("a", .num (.int 1)), ("b", .num (.int 2))], []) ∧
    Reporter.transform
      [("foo", .num (.int 1)), ("bar", .str "x"), ("temp_id", .str "abc"),
       ("debug", .bool true), ("status", .str "ok")]
      (some [fun s k => isNumberType (getJS s k)]) =
      ([("foo", .num (.int 1)), ("bar", .str "x"), ("temp_id", .str "abc"),
        ("debug", .bool true), ("status", .str "ok")], []) := by
  exact ⟨by decide, by decide⟩

/-- C9: counterexample to "if absent or non-numeric, add returns
`{ key: amount }`": on the empty state the operation `add("k", -0)`
returns `{ k: +0 }` (the code computes `0 + amount`), which is not
`{ k: -0 }` under the value-identity the spec itself uses. -/
theorem c9_counterexample_neg_zero :
    Operations.add "k" JsNum.negZero [] ≠ [("k", ReporterValue.num JsNum.negZero)] := by
  decide

/-- C9 (amended): `add(key, amount)` returns
`{ key: currentValue + amount }` when the current value is numeric and
`{ key: 0 + amount }` when the key is absent or non-numeric — the latter
equals `{ key: amount }` for every amount except `-0`; `sub` is
symmetric with subtraction, and both constructors are pure (evaluating
twice against the same state yields the same delta). -/
theorem c9_amended_add_sub_semantics :
    (∀ (st : Entries) (key : String) (amount n : JsNum),
      getJS st key = .num n → Operations.add key amount st = [(key, .num (jsAdd n amount))]) ∧
    (∀ (st : Entries) (key : String) (amount : JsNum),
      isNumberType (getJS st key) = false →
        Operations.add key amount st = [(key, .num (jsAdd (.int 0) amount))]) ∧
    (∀ (st : Entries) (key : String) (amount n : JsNum),
      getJS st key = .num n → Operations.sub key amount st = [(key, .num (jsSub n amount))]) ∧
    (∀ (st : Entries) (key : String) (amount : JsNum),
      isNumberType (getJS st key) = false →
        Operations.sub key amount st = [(key, .num (jsSub (.int 0) amount))]) ∧
    (∀ (st : Entries) (key : String) (amount : JsNum),
      hasOwn st key = false →
        Operations.add key amount st = [(key, .num (jsAdd (.int 0) amount))]) ∧
    (∀ amount : JsNum, amount ≠ .negZero → jsAdd (.int 0) amount = amount) ∧
    (∀ (st : Entries) (key : String) (amount : JsNum),
      Operations.add key amount st = Operations.add key amount st) := by
  refine ⟨?_, ?_, ?_, ?_, ?_, ?_, fun _ _ _ => rfl⟩
  · intro st key amount n h
    simp [Operations.add, h]
  · intro st key amount h
    cases hv : getJS st key <;> simp_all [Operations.add, isNumberType]
  · intro st key amount n h
    simp [Operations.sub, h]
  · intro st key amount h
    cases hv : getJS st key <;> simp_all [Operations.sub, isNumberType]
  · intro st key amount h
    simp [Operations.add, getJS_of_hasOwn_eq_false h]
  · intro amount h
    cases amount <;> simp_all [jsAdd]

theorem c9_amended_witness :
    Operations.add "k" (JsNum.int 5) [("k", ReporterValue.num (JsNum.int 10))] =
      [("k", ReporterValue.num (jsAdd (JsNum.int 10) (JsNum.int 5)))] ∧
    jsAdd (JsNum.int 0) (JsNum.int 5) = JsNum.int 5 :=
  ⟨c9_amended_add_sub_semantics.1 [("k", ReporterValue.num (JsNum.int 10))] "k"
      (JsNum.int 5) (JsNum.int 10) (by decide),
    c9_amended_add_sub_semantics.2.2.2.2.2.1 (JsNum.int 5) (by decide)⟩

/-- C10: counterexample to "`watch()` with no keys is equivalent to the
unfiltered broadcast stream": from the empty state, applying
`{a: 1}` commits and broadcasts one snapshot on the main stream, yet the
`watch()` stream with an empty key list forwards nothing. -/
theorem c10_counterexample_empty_watch :
    Reporter.apply [] [.raw [("a", ReporterValue.num (JsNum.int 1))]] =
      ([("a", ReporterValue.num (JsNum.int 1))],
       [[("a", ReporterValue.num (JsNum.int 1))]]) ∧
    Reporter.watch [] [] [[("a", ReporterValue.num (JsNum.int 1))]] = [] := by
  exact ⟨by decide, by decide⟩

/-- C10 (amended): for the empty key list, the stream returned by
`Reporter.watch()` never forwards any emission — its filter predicate is
a `some` over an empty key list, which is always false — so it is the
never-emitting stream, not the unfiltered broadcast stream. -/
theorem c10_amended_empty_watch_never_emits :
    ∀ (current : Entries) (future : List Entries), Reporter.watch [] current future = [] := by
  intro current future
  unfold Reporter.watch Reporter.pairFilter
  simp [List.filter_eq_nil_iff]

/-- C5: `Reporter.transform` is extensionally the identity — for every
well-formed committed state and every options argument (any `keep` list
or none), it leaves the committed state unchanged and emits no
snapshot: the working copy is seeded with a full copy of the state, so
non-retained keys are never deleted and the shallow-equality commit
guard never fires. -/
theorem c5_transform_is_identity (st : Entries) (keep : Option (List Reporter.Pred))
    (hnd : NodupKeys st) : Reporter.transform st keep = (st, []) := by
  unfold Reporter.transform
  rcases hr : Reporter.transformLoop st keep (keysOf st) st false with ⟨next, removed⟩
  have hnext : next = st := by
    have h2 := transformLoop_fst_eq_self st keep hnd (keysOf st) false
      (fun _ hk => hasOwn_iff_mem.mpr hk)
    rw [hr] at h2
    exact h2
  subst hnext
  simp [hr, shallowEqual_refl]

theorem c5_witness :
    Reporter.transform [("a", ReporterValue.num (JsNum.int 1))] (some [fun _ _ => false]) =
      ([("a", ReporterValue.num (JsNum.int 1))], []) :=
  c5_transform_is_identity [("a", ReporterValue.num (JsNum.int 1))]
    (some [fun _ _ => false]) (by decide)

/-- C6: under the invariant that consecutive committed snapshots differ,
`Reporter.watch` forwards an emission exactly when some watched key
differs under `Object.is` between the previous and current committed
state, with the subscription-time state as the first comparison
baseline, and forwards the full snapshot (first conjunct); every
reporter run does satisfy that invariant (second conjunct); with no
commits after subscription nothing is forwarded regardless of prior
history (third conjunct); and in the concrete scenario from
`{a:1,b:2,c:3}`, `set("b",20)` forwards nothing, `set("a",5)` then
forwards exactly one full snapshot with `a = 5`, and a batch changing
`a`, `b`, `c` together forwards exactly one more (remaining
conjuncts). -/
theorem c6_watch_key_scoped :
    (∀ (keys : List String) (cur : Entries) (commits : List Entries),
      Reporter.consecDistinct (cur :: commits) = true →
        Reporter.watch keys cur commits = Reporter.pairFilter keys (cur :: commits)) ∧
    (∀ (st : Entries) (batches : List (List Reporter.ApplyItem)),
      Reporter.consecDistinct (st :: (Reporter.runBatches st batches).2) = true) ∧
    (∀ (keys : List String) (cur : Entries), Reporter.watch keys cur [] = []) ∧
    Reporter.watch ["a", "c"] [("a", .num (.int 1)), ("b", .num (.int 2)), ("c", .num (.int 3))]
      (Reporter.runBatches [("a", .num (.int 1)), ("b", .num (.int 2)), ("c", .num (.int 3))]
        [[.raw [("b", .num (.int 20))]]]).2 = [] ∧
    Reporter.watch ["a", "c"] [("a", .num (.int 1)), ("b", .num (.int 2)), ("c", .num (.int 3))]
      (Reporter.runBatches [("a", .num (.int 1)), ("b", .num (.int 2)), ("c", .num (.int 3))]
        [[.raw [("b", .num (.int 20))]], [.raw [("a", .num (.int 5))]]]).2 =
      [[("a", .num (.int 5)), ("b", .num (.int 20)), ("c", .num (.int 3))]] ∧
    (Reporter.watch ["a", "c"] [("a", .num (.int 1)), ("b", .num (.int 2)), ("c", .num (.int 3))]
      (Reporter.runBatches [("a", .num (.int 1)), ("b", .num (.int 2)), ("c", .num (.int 3))]
        [[.raw [("b", .num (.int 20))]], [.raw [("a", .num (.int 5))]],
         [.raw [("a", .num (.int 100)), ("b", .num (.int 200)), ("c", .num (.int 300))]]]).2).length
      = 2 := by
  refine ⟨watch_eq_pairFilter, runBatches_consecDistinct, fun keys cur => ?_,
    by decide, by decide, by decide⟩
  rw [watch_eq_pairFilter keys cur [] rfl]
  rfl

theorem c6_witness :
    Reporter.watch ["a"] [("a", ReporterValue.num (JsNum.int 1))]
        [[("a", ReporterValue.num (JsNum.int 2))]] =
      Reporter.pairFilter ["a"]
        [[("a", ReporterValue.num (JsNum.int 1))], [("a", ReporterValue.num (JsNum.int 2))]] :=
  c6_watch_key_scoped.1 ["a"] [("a", ReporterValue.num (JsNum.int 1))]
    [[("a", ReporterValue.num (JsNum.int 2))]] (by decide)

/-- C7: for every well-formed state and predicate list, `Reporter.prune`
keeps a key iff every predicate returns true for it (first inner
conjunct), preserves the values of surviving keys (second), emits
exactly one snapshot iff at least one key was actually removed (third),
and is the identity with zero emissions when the predicates keep
everything (fourth); concretely, pruning `{foo:1,bar:2,baz:3,qux:4}`
with `[k ≠ foo, k ≠ bar]` commits `{baz:3,qux:4}` with exactly one
emission, and re-pruning that state with an always-true predicate emits
nothing. -/
theorem c7_prune_keep_all_semantics :
    (∀ (st : Entries) (preds : List Reporter.Pred), NodupKeys st →
      (∀ k : String, hasOwn (Reporter.prune st preds).1 k =
        (hasOwn st k && preds.all (fun fn => fn st k))) ∧
      (∀ k : String, preds.all (fun fn => fn st k) = true →
        getJS (Reporter.prune st preds).1 k = getJS st k) ∧
      ((Reporter.prune st preds).2.length =
        if st.any (fun e => !(preds.all (fun fn => fn st e.1))) then 1 else 0) ∧
      (st.all (fun e => preds.all (fun fn => fn st e.1)) = true →
        Reporter.prune st preds = (st, []))) ∧
    Reporter.prune
      [("foo", .num (.int 1)), ("bar", .num (.int 2)), ("baz", .num (.int 3)),
       ("qux", .num (.int 4))]
      [fun _ k => !(k == "foo"), fun _ k => !(k == "bar")] =
      ([("baz", .num (.int 3)), ("qux", .num (.int 4))],
       [[("baz", .num (.int 3)), ("qux", .num (.int 4))]]) ∧
    Reporter.prune [("baz", .num (.int 3)), ("qux", .num (.int 4))] [fun _ _ => true] =
      ([("baz", .num (.int 3)), ("qux", .num (.int 4))], []) := by
  refine ⟨fun st preds hnd => ?_, by decide, by decide⟩
  by_cases hany : st.any (fun e => !(preds.all (fun fn => fn st e.1))) = true
  · rw [prune_result_of_removed st preds hnd hany]
    refine ⟨fun k => hasOwn_filter st (fun k => preds.all (fun fn => fn st k)) k,
      fun k hk => getJS_filter st (fun k => preds.all (fun fn => fn st k)) k hk,
      by simp [hany], ?_⟩
    intro hall
    obtain ⟨e, he, hef⟩ := List.any_eq_true.mp hany
    rw [List.all_eq_true.mp hall e he] at hef
    simp at hef
  · have hany' : st.any (fun e => !(preds.all (fun fn => fn st e.1))) = false := by
      simpa using hany
    rw [prune_result_of_none_removed st preds hnd hany']
    have hpass : ∀ e ∈ st, preds.all (fun fn => fn st e.1) = true := by
      intro e he
      have := List.any_eq_false.mp hany' e he
      simpa using this
    refine ⟨?_, fun k _ => rfl, by simp [hany'], fun _ => rfl⟩
    intro k
    by_cases hk : hasOwn st k = true
    · obtain ⟨e, he, hek⟩ := List.any_eq_true.mp hk
      have hkey : e.1 = k := by simpa using hek
      rw [hk, Bool.true_and, ← hkey]
      exact (hpass e he).symm
    · have hk' : hasOwn st k = false := by simpa using hk
      rw [hk', Bool.false_and]

theorem c7_witness :
    hasOwn (Reporter.prune [("x", ReporterValue.num (JsNum.int 1))] []).1 "x" =
      (hasOwn [("x", ReporterValue.num (JsNum.int 1))] "x" &&
        ([] : List Reporter.Pred).all
          (fun fn => fn [("x", ReporterValue.num (JsNum.int 1))] "x")) :=
  ((c7_prune_keep_all_semantics.1 [("x", ReporterValue.num (JsNum.int 1))] []
    (by decide)).1 "x")

/-- C8: for well-formed objects, `shallowEqual a b` is true iff `a` and
`b` have identical own-key sets and every paired value is identical
under `Object.is` (first conjunct); two objects with different key
counts are never shallow-equal (second conjunct, plus a concrete
instance as the last conjunct); and the identity test treats `NaN` as
equal to `NaN` while keeping `+0`/`-0`, `null` and `undefined` pairwise
distinct (middle conjuncts). -/
theorem c8_shallowEqual_characterization :
    (∀ (a b : Entries), NodupKeys a → NodupKeys b →
      (shallowEqual a b = true ↔
        ((∀ k : String, hasOwn a k = hasOwn b k) ∧
         (∀ k : String, hasOwn a k = true → objectIs (getJS a k) (getJS b k) = true)))) ∧
    (∀ a b : Entries, (keysOf a).length ≠ (keysOf b).length → shallowEqual a b = false) ∧
    objectIs (ReporterValue.num JsNum.nan) (ReporterValue.num JsNum.nan) = true ∧
    objectIs (ReporterValue.num (JsNum.int 0)) (ReporterValue.num JsNum.negZero) = false ∧
    objectIs ReporterValue.null ReporterValue.undefined = false ∧
    objectIs ReporterValue.undefined ReporterValue.null = false ∧
    shallowEqual [("a", ReporterValue.num (JsNum.int 1))]
      [("a", ReporterValue.num (JsNum.int 1)), ("b", ReporterValue.num (JsNum.int 2))] =
      false := by
  refine ⟨?_, fun a b h => shallowEqual_of_length_ne h, by decide, by decide, by decide,
    by decide, by decide⟩
  intro a b ha hb
  constructor
  · intro h
    have hlen : (keysOf a).length = (keysOf b).length := by
      by_contra hne
      rw [shallowEqual_of_length_ne hne] at h
      cases h
    have hall : ∀ k ∈ keysOf a,
        hasOwn b k = true ∧ objectIs (getJS a k) (getJS b k) = true := by
      intro k hk
      unfold shallowEqual at h
      rw [if_neg (by simp [hlen])] at h
      have := List.all_eq_true.mp h k hk
      simpa using this
    have hsub : keysOf a ⊆ keysOf b := fun k hk => hasOwn_iff_mem.mp (hall k hk).1
    have hperm : List.Perm (keysOf a) (keysOf b) :=
      (List.subperm_of_subset ha hsub).perm_of_length_le (le_of_eq hlen.symm)
    have hmem : ∀ k, k ∈ keysOf a ↔ k ∈ keysOf b := fun k => hperm.mem_iff
    refine ⟨?_, fun k hk => (hall k (hasOwn_iff_mem.mp hk)).2⟩
    intro k
    by_cases hka : hasOwn a k = true
    · have hkb : hasOwn b k = true :=
        hasOwn_iff_mem.mpr ((hmem k).mp (hasOwn_iff_mem.mp hka))
      rw [hka, hkb]
    · have hka' : hasOwn a k = false := by simpa using hka
      have hkb : hasOwn b k = false := by
        by_contra hc
        have hc' : hasOwn b k = true := by simpa using hc
        exact hka (hasOwn_iff_mem.mpr ((hmem k).mpr (hasOwn_iff_mem.mp hc')))
      rw [hka', hkb]
  · rintro ⟨hkeys, hvals⟩
    have hmem : ∀ k, k ∈ keysOf a ↔ k ∈ keysOf b := by
      intro k
      rw [← hasOwn_iff_mem, ← hasOwn_iff_mem, hkeys k]
    have hperm : List.Perm (keysOf a) (keysOf b) :=
      (List.perm_ext_iff_of_nodup ha hb).mpr hmem
    unfold shallowEqual
    rw [if_neg (by simp [hperm.length_eq]), List.all_eq_true]
    intro k hk
    have hkb : hasOwn b k = true := by
      rw [← hkeys k]
      exact hasOwn_iff_mem.mpr hk
    simp [hkb, hvals k (hasOwn_iff_mem.mpr hk)]

theorem c8_witness :
    shallowEqual [("a", ReporterValue.num JsNum.nan)] [("a", ReporterValue.num JsNum.nan)] =
        true ↔
      ((∀ k : String, hasOwn [("a", ReporterValue.num JsNum.nan)] k =
          hasOwn [("a", ReporterValue.num JsNum.nan)] k) ∧
       (∀ k : String, hasOwn [("a", ReporterValue.num JsNum.nan)] k = true →
          objectIs (getJS [("a", ReporterValue.num JsNum.nan)] k)
            (getJS [("a", ReporterValue.num JsNum.nan)] k) = true)) :=
  c8_shallowEqual_characterization.1 [("a", ReporterValue.num JsNum.nan)]
    [("a", ReporterValue.num JsNum.nan)] (by decide) (by decide)

end TsKit
